import Mathlib

/-!
Shallow embedding of `ycrawler.py`, an asyncio crawler for
news.ycombinator.com.  Effects are reified: the network is an oracle
`String → NetOutcome` giving the outcome of one GET, HTML extraction
(BeautifulSoup, an external collaborator) is an oracle from page bodies to
structured data, and file writes are collected into the returned list of
`WrittenFile`s.  An exception escaping a coroutine is an `Except.error`.
-/

namespace YCrawler

/-- Byte payload, as returned by `await r.read()`. -/
abbrev Payload := List Nat

/-- Constant `SITE = 'https://news.ycombinator.com'`. -/
def SITE : String := "https://news.ycombinator.com"

/-- Timeout passed as `ClientTimeout(total=5)` to the aiohttp session in `run`. -/
def clientTimeoutTotal : Nat := 5

/-- Transport-level failure other than a timeout (a connection or protocol
error raised by the client library). -/
inductive TransportExn where
  | connectionError
  | protocolError
deriving DecidableEq

/-- Outcome of one attempted `session.get(url)` plus `await r.read()`:
either a body with its content type and status, a timeout
(`TimeoutError`), or some other transport exception. -/
inductive NetOutcome where
  | success (body : Payload) (contentType : String) (status : Nat)
  | timeout
  | transportError (e : TransportExn)
deriving DecidableEq

/-- Embedding of `YCrawler.read_url`.  `response`, `content_type` and
`status` start at `None`; the `try` block performs the GET under the
semaphore and on success fills all three; `except TimeoutError` sets
`status = 408` leaving `response` and `content_type` at `None`; any other
exception is not caught and propagates to the caller. -/
def read_url (o : NetOutcome) :
    Except TransportExn (Option Payload × Option String × Option Nat) :=
  match o with
  | .success body contentType status => .ok (some body, some contentType, some status)
  | .timeout => .ok (none, none, some 408)
  | .transportError e => .error e

/-- Characters removed at the ends by `.strip('_ ')` in `make_safe_filename`. -/
def stripSet (c : Char) : Bool := c == '_' || c == ' '

/-- Python `str.isspace`, restricted to the ASCII whitespace characters. -/
def pyIsSpace (c : Char) : Bool :=
  c == ' ' || c == '\t' || c == '\n' || c == '\r' || c == '\x0b' || c == '\x0c'

/-- One character of the comprehension in `make_safe_filename`:
`c if (c.isalnum() or c.isspace()) else '_'` (alphanumeric restricted to
ASCII). -/
def sanitizeChar (c : Char) : Char :=
  if c.isAlphanum || pyIsSpace c then c else '_'

/-- Python `str.strip`: drop the characters satisfying `p` from both ends. -/
def pyStrip (p : Char → Bool) (l : List Char) : List Char :=
  ((l.dropWhile p).reverse.dropWhile p).reverse

/-- Embedding of `make_safe_filename`: map `sanitizeChar` over the text,
strip `'_'` and `' '` from both ends, append `".html"`. -/
def make_safe_filename (text : String) : String :=
  ⟨pyStrip stripSet (text.toList.map sanitizeChar)⟩ ++ ".html"

/-- Python `str.strip()` with no argument (strip whitespace), used for
`a.text.strip()` in `parse_item`. -/
def pyStripStr (s : String) : String :=
  ⟨pyStrip pyIsSpace s.toList⟩

/-- Models `Path(comm_url).name.split("?")[0]`: the part of the URL after
the last slash, truncated at the first question mark. -/
def pathName (url : String) : String :=
  ⟨((url.toList.reverse.takeWhile (fun c => !(c == '/'))).reverse).takeWhile
      (fun c => !(c == '?'))⟩

/-- Filename chosen for a comment link in `parse_comments`:
`f'{comm_id}_{link_num}.html'` when the content type is `text/html`,
otherwise `f'{comm_id}_{link_num}_{Path(comm_url).name.split("?")[0]}'`. -/
def commentFname (commId : String) (linkNum : Nat) (contentType : Option String)
    (commUrl : String) : String :=
  if contentType == some "text/html" then
    commId ++ "_" ++ toString linkNum ++ ".html"
  else
    commId ++ "_" ++ toString linkNum ++ "_" ++ pathName commUrl

/-- Python truthiness test `not response` on an optional byte payload:
true when the payload is absent or empty. -/
def falsy : Option Payload → Bool
  | none => true
  | some [] => true
  | some (_ :: _) => false

/-- One comment of a story page, as extracted by the markup collaborator:
its element id and the `href`s of the anchors inside its text, in document
order (`comm_urls`). -/
structure Comment where
  id : String
  urls : List String
deriving DecidableEq

/-- One front-page story entry (a `tr.athing` element): its element id, the
text of the first `titleline` anchor, and that anchor's `href`. -/
structure Item where
  id : String
  titleText : String
  href : String
deriving DecidableEq

/-- One file persisted by `write_file`: directory path segments, filename,
and content. -/
structure WrittenFile where
  dir : List String
  fname : String
  content : Payload
deriving DecidableEq

/-- Body of the `for comm_url in comm_urls` loop in `parse_comments` for one
comment.  Each link is fetched once through `read_url`; a falsy payload or a
status other than 200 is logged and skipped with `continue` (before
`link_num` is incremented); otherwise the file is written and `link_num`
increments.  Returns the written files and the fetched URLs in order; an
uncaught exception from `read_url` propagates. -/
def processCommentLinks (fetch : String → NetOutcome) (dir : List String)
    (commId : String) :
    List String → Nat → Except TransportExn (List WrittenFile × List String)
  | [], _ => .ok ([], [])
  | commUrl :: rest, linkNum =>
    match read_url (fetch commUrl) with
    | .error e => .error e
    | .ok (response, contentType, status) =>
      if falsy response || !(status == some 200) then
        match processCommentLinks fetch dir commId rest linkNum with
        | .error e => .error e
        | .ok (files, fetched) => .ok (files, commUrl :: fetched)
      else
        match processCommentLinks fetch dir commId rest (linkNum + 1) with
        | .error e => .error e
        | .ok (files, fetched) =>
          .ok (⟨dir, commentFname commId linkNum contentType commUrl,
                response.getD []⟩ :: files, commUrl :: fetched)

/-- Outer `for comment in comment_items` loop of `parse_comments`: each
comment's links are processed with `link_num` starting at 0. -/
def processComments (fetch : String → NetOutcome) (dir : List String) :
    List Comment → Except TransportExn (List WrittenFile × List String)
  | [] => .ok ([], [])
  | c :: rest =>
    match processCommentLinks fetch dir c.id c.urls 0 with
    | .error e => .error e
    | .ok (files, fetched) =>
      match processComments fetch dir rest with
      | .error e => .error e
      | .ok (files2, fetched2) => .ok (files ++ files2, fetched ++ fetched2)

/-- Embedding of `YCrawler.parse_comments`: the comment items are extracted
from the story page body by the markup collaborator (`extract`); files go
under `Path(self.root) / item['id'] / 'comments'`. -/
def parse_comments (fetch : String → NetOutcome)
    (extract : Payload → List Comment) (root : String)
    (response : Payload) (itemId : String) :
    Except TransportExn (List WrittenFile × List String) :=
  processComments fetch [root, itemId, "comments"] (extract response)

/-- URL fetched by `parse_item`: `f'{self.site}/item?id={item['id']}'`. -/
def itemUrl (itemId : String) : String :=
  SITE ++ "/item?id=" ++ itemId

/-- Embedding of `YCrawler.parse_item`.  Fetches the item page; if the
payload is falsy the story is skipped (`return`, i.e. `none`).  Otherwise
the title is `a.text.strip()` of the entry's first `titleline` anchor (the
anchor's `href` is read for the log line only), the page body is written to
`Path(self.root) / item['id'] / make_safe_filename(name)`, the comments are
processed, and `(name, url)` is returned together with the files written. -/
def parse_item (fetch : String → NetOutcome) (extract : Payload → List Comment)
    (root : String) (item : Item) :
    Except TransportExn (Option ((String × String) × List WrittenFile)) :=
  let url := itemUrl item.id
  match read_url (fetch url) with
  | .error e => .error e
  | .ok (response, _, _) =>
    if falsy response then .ok none
    else
      let name := pyStripStr item.titleText
      let _href := item.href
      let storyFile : WrittenFile :=
        ⟨[root, item.id], make_safe_filename name, response.getD []⟩
      match parse_comments fetch extract root (response.getD []) item.id with
      | .error e => .error e
      | .ok (files, _) => .ok (some ((name, url), storyFile :: files))

/-- What `run` keeps of one `parse_item` call when no exception escapes:
`name_url_tpl` when a pair was returned, `none` when the story was
skipped. -/
def processResult (fetch : String → NetOutcome)
    (extract : Payload → List Comment) (root : String) (item : Item) :
    Option (String × String) :=
  match parse_item fetch extract root item with
  | .ok (some (tpl, _)) => some tpl
  | _ => none

/-- Observable decision of the crawl loop for one considered entry: either
`parse_item` was invoked for its id, or the entry was skipped with the
debug log `'News item %s already parsed'`. -/
inductive Event where
  | invoked (id : String)
  | skippedSeen (id : String)
deriving DecidableEq

/-- Identifier an event is about. -/
def Event.targetId : Event → String
  | .invoked i => i
  | .skippedSeen i => i

/-- The `parsed_news` dict of `run`: story id to `(name, url)` pair. -/
abbrev Seen := List (String × (String × String))

/-- Inner `for news_item in news[:self.top_news_count]` loop of `run`
(applied to the already-truncated list).  An id absent from `parsed_news`
has `parse_item` invoked, abstracted here as the oracle `process`; a
returned pair is inserted into `parsed_news`, a falsy result leaves it
unchanged (`continue`).  A present id is skipped with a debug log.  An
exception escaping `parse_item` ends the run at once and produces no
further iterations, so the dispatch decisions of completed iterations are
as modelled. -/
def dispatch (process : Item → Option (String × String)) :
    Seen → List Item → Seen × List Event
  | seen, [] => (seen, [])
  | seen, item :: rest =>
    if (seen.lookup item.id).isSome then
      let r := dispatch process seen rest
      (r.1, Event.skippedSeen item.id :: r.2)
    else
      match process item with
      | none =>
        let r := dispatch process seen rest
        (r.1, Event.invoked item.id :: r.2)
      | some tpl =>
        let r := dispatch process ((item.id, tpl) :: seen) rest
        (r.1, Event.invoked item.id :: r.2)

/-- Outer `while True` loop of `run`: each successful front-page poll gives
one list of story entries, of which the first `top_news_count` are
considered; `parsed_news` persists across cycles.  Events of all cycles are
concatenated in order. -/
def runCycles (process : Item → Option (String × String))
    (top_news_count : Nat) :
    Seen → List (List Item) → Seen × List Event
  | seen, [] => (seen, [])
  | seen, news :: cycles =>
    let c := dispatch process seen (news.take top_news_count)
    let r := runCycles process top_news_count c.1 cycles
    (r.1, c.2 ++ r.2)

/-- Constructor parameters of `YCrawler.__init__` with their default
values. -/
structure Config where
  sleep : Nat := 60
  top_news_count : Nat := 30
  max_tasks : Nat := 10
  root : String := "web"
  run_once : Bool := true

/-- One transition of the admission gate `asyncio.Semaphore(max_tasks)`
created in `YCrawler.__init__` and entered by every `read_url` call, at any
call site.  The state is the number of `read_url` calls currently inside
`async with self.semaphore`: entering requires a free slot, exiting (also
on an exception unwinding the `async with`) frees one. -/
inductive GateStep (cap : Nat) : Nat → Nat → Prop where
  | acquire (n : Nat) : n < cap → GateStep cap n (n + 1)
  | release (n : Nat) : GateStep cap (n + 1) n

/-- Gate states reachable from the idle gate by any interleaving of fetch
admissions and completions. -/
def GateReachable (cap : Nat) (n : Nat) : Prop :=
  Relation.ReflTransGen (GateStep cap) 0 n

/-- C1: at every moment of an execution, the number of fetches
simultaneously inside `read_url`'s shared admission gate is at most
`max_tasks` (default 10), under any interleaving of admissions and
completions from any call site: every reachable gate state is bounded by
the capacity, and the default capacity is 10. -/
theorem fetch_gate_bounded :
    (∀ (cfg : Config) (n : Nat), GateReachable cfg.max_tasks n → n ≤ cfg.max_tasks) ∧
    ({} : Config).max_tasks = 10 := by
  constructor
  · intro cfg n h
    induction h with
    | refl => exact Nat.zero_le _
    | tail _ step ih =>
      cases step with
      | acquire _ hm => exact hm
      | release _ => exact Nat.le_of_succ_le ih
  · rfl

/-- Witness for C1 at a concrete reachable state: after one admission the
gate holds one fetch, which is within the default bound. -/
theorem fetch_gate_bounded_witness :
    GateReachable ({} : Config).max_tasks 1 ∧ 1 ≤ ({} : Config).max_tasks :=
  have hr : GateReachable ({} : Config).max_tasks 1 :=
    Relation.ReflTransGen.single (GateStep.acquire 0 (by decide))
  ⟨hr, fetch_gate_bounded.1 {} 1 hr⟩

/-- C3 counterexample: a connection error is not caught by `read_url`; it
escapes to the caller as an exception instead of being returned as a
non-2xx status with an empty payload. -/
theorem read_url_conn_error_escapes :
    read_url (NetOutcome.transportError TransportExn.connectionError) =
      Except.error TransportExn.connectionError := rfl

/-- C3 amended: `read_url` catches only timeouts, surfacing them as status
408 with no payload; every other transport failure escapes to the caller as
an exception; a completed GET is returned with its payload, content type
and status. -/
theorem read_url_only_timeout_caught :
    (∀ e, read_url (NetOutcome.transportError e) = Except.error e) ∧
    read_url NetOutcome.timeout = Except.ok (none, none, some 408) ∧
    (∀ body ct st, read_url (NetOutcome.success body ct st) =
      Except.ok (some body, some ct, some st)) :=
  ⟨fun _ => rfl, rfl, fun _ _ _ => rfl⟩

/-- C4: the per-request timeout is 5 seconds; a timed-out fetch yields
status 408 with an empty payload; `parse_comments` fetches such a link
exactly once (no retry), writes nothing for it and continues with the
remaining links without raising; `parse_item` skips such a story without
raising. -/
theorem timeout_skip_no_retry :
    clientTimeoutTotal = 5 ∧
    read_url NetOutcome.timeout = Except.ok (none, none, some 408) ∧
    (∀ (fetch : String → NetOutcome) (dir : List String)
        (commId commUrl : String) (rest : List String) (linkNum : Nat),
      fetch commUrl = NetOutcome.timeout →
      processCommentLinks fetch dir commId (commUrl :: rest) linkNum =
        (processCommentLinks fetch dir commId rest linkNum).map
          (fun r => (r.1, commUrl :: r.2))) ∧
    (∀ (fetch : String → NetOutcome) (extract : Payload → List Comment)
        (root : String) (item : Item),
      fetch (itemUrl item.id) = NetOutcome.timeout →
      parse_item fetch extract root item = Except.ok none) := by
  refine ⟨rfl, rfl, ?_, ?_⟩
  · intro fetch dir commId commUrl rest linkNum h
    simp only [processCommentLinks, h, read_url, falsy, Bool.true_or, if_pos]
    cases hr : processCommentLinks fetch dir commId rest linkNum with
    | error e => rfl
    | ok r => rfl
  · intro fetch extract root item h
    simp [parse_item, h, read_url, falsy]

/-- Witness for C4 at a concrete timed-out fetch. -/
theorem timeout_skip_no_retry_witness :
    (fun _ : String => NetOutcome.timeout) "u" = NetOutcome.timeout ∧
    processCommentLinks (fun _ => NetOutcome.timeout) ["web"] "c" ["u"] 0 =
      (processCommentLinks (fun _ => NetOutcome.timeout) ["web"] "c" [] 0).map
        (fun r => (r.1, "u" :: r.2)) :=
  ⟨rfl, timeout_skip_no_retry.2.2.1 (fun _ => NetOutcome.timeout) ["web"] "c" "u" [] 0 rfl⟩

/-- Characters survive `pyStrip` only if they were in the input. -/
theorem mem_of_mem_pyStrip {p : Char → Bool} {l : List Char} {a : Char}
    (h : a ∈ pyStrip p l) : a ∈ l := by
  unfold pyStrip at h
  rw [List.mem_reverse] at h
  have h2 : a ∈ (l.dropWhile p).reverse := (List.dropWhile_sublist p).mem h
  rw [List.mem_reverse] at h2
  exact (List.dropWhile_sublist p).mem h2

/-- The first character left by `pyStrip` does not satisfy the strip
predicate. -/
theorem pyStrip_head?_not {p : Char → Bool} {l : List Char} {a : Char}
    (h : (pyStrip p l).head? = some a) : p a = false := by
  unfold pyStrip at h
  rw [List.head?_reverse] at h
  have hx : ((l.dropWhile p).reverse).getLast? = some a := by
    rw [← List.takeWhile_append_dropWhile p ((l.dropWhile p).reverse),
      List.getLast?_append, h]
    rfl
  rw [List.getLast?_reverse] at hx
  have hm := List.head?_dropWhile_not p l
  rw [hx] at hm
  exact hm

/-- The last character left by `pyStrip` does not satisfy the strip
predicate. -/
theorem pyStrip_getLast?_not {p : Char → Bool} {l : List Char} {a : Char}
    (h : (pyStrip p l).getLast? = some a) : p a = false := by
  unfold pyStrip at h
  rw [List.getLast?_reverse] at h
  have hm := List.head?_dropWhile_not p ((l.dropWhile p).reverse)
  rw [h] at hm
  exact hm

/-- C6 counterexample: `.strip('_ ')` removes only underscores and space
characters, not all whitespace.  A leading tab is whitespace, yet it
survives: `make_safe_filename "\ta"` keeps the tab instead of trimming it
as the claim requires. -/
theorem make_safe_filename_tab_counterexample :
    make_safe_filename "\ta" = "\ta.html" ∧ pyIsSpace '\t' = true ∧
    ("\ta.html").toList.head? = some '\t' ∧
    make_safe_filename "\ta" ≠ "a.html" :=
  ⟨by decide, by decide, by decide, by decide⟩

/-- C6 amended: every character that is neither alphanumeric nor whitespace
is replaced with an underscore (so only alphanumerics, whitespace, `'_'`
and the suffix `".html"` appear in the output); leading and trailing
underscores and space characters (the two characters `'_'` and `' '` only
— other whitespace such as tabs is kept) are trimmed before the `".html"`
suffix is appended; in particular `make_safe_filename "A/B: C?"` is
`"A_B_ C.html"`, which contains no `'/'`, `':'` or `'?'`. -/
theorem make_safe_filename_sanitizes :
    (∀ (text : String) (c : Char), c ∈ (make_safe_filename text).toList →
      c.isAlphanum = true ∨ pyIsSpace c = true ∨ c = '_' ∨ c ∈ (".html").toList) ∧
    (∀ text : String, ∃ core : List Char,
      (make_safe_filename text).toList = core ++ (".html").toList ∧
      core.head? ≠ some '_' ∧ core.head? ≠ some ' ' ∧
      core.getLast? ≠ some '_' ∧ core.getLast? ≠ some ' ') ∧
    make_safe_filename "A/B: C?" = "A_B_ C.html" ∧
    (∀ c ∈ (make_safe_filename "A/B: C?").toList, c ≠ '/' ∧ c ≠ ':' ∧ c ≠ '?') := by
  have hsplit : ∀ text : String, (make_safe_filename text).toList =
      pyStrip stripSet (text.toList.map sanitizeChar) ++ (".html").toList := by
    intro text
    show (make_safe_filename text).data = _
    rw [make_safe_filename, String.data_append]
    rfl
  refine ⟨?_, ?_, by decide, by decide⟩
  · intro text c hc
    rw [hsplit] at hc
    rcases List.mem_append.1 hc with hc | hc
    · have hm : c ∈ text.toList.map sanitizeChar := mem_of_mem_pyStrip hc
      obtain ⟨a, _, ha⟩ := List.mem_map.1 hm
      rw [sanitizeChar] at ha
      by_cases hcond : (a.isAlphanum || pyIsSpace a) = true
      · rw [if_pos hcond] at ha
        subst ha
        rcases Bool.or_eq_true_iff.1 hcond with h1 | h1
        · exact Or.inl h1
        · exact Or.inr (Or.inl h1)
      · rw [if_neg hcond] at ha
        exact Or.inr (Or.inr (Or.inl ha.symm))
    · exact Or.inr (Or.inr (Or.inr hc))
  · intro text
    refine ⟨pyStrip stripSet (text.toList.map sanitizeChar), hsplit text,
      ?_, ?_, ?_, ?_⟩ <;> intro h
    · have := pyStrip_head?_not h
      simp [stripSet] at this
    · have := pyStrip_head?_not h
      simp [stripSet] at this
    · have := pyStrip_getLast?_not h
      simp [stripSet] at this
    · have := pyStrip_getLast?_not h
      simp [stripSet] at this

/-- Witness for C6 at a concrete input with inner and trailing
underscores. -/
theorem make_safe_filename_sanitizes_witness :
    ∃ core : List Char,
      (make_safe_filename "a_b_").toList = core ++ (".html").toList ∧
      core.head? ≠ some '_' ∧ core.head? ≠ some ' ' ∧
      core.getLast? ≠ some '_' ∧ core.getLast? ≠ some ' ' :=
  make_safe_filename_sanitizes.2.1 "a_b_"

/-- Ordinals in the filenames written for one comment are consecutive from
the starting `link_num`: the j-th file written carries ordinal `n + j`,
because `link_num` increments exactly when a file is written. -/
theorem processCommentLinks_ordinal (fetch : String → NetOutcome)
    (dir : List String) (commId : String) :
    ∀ (urls : List String) (n : Nat) (files : List WrittenFile) (tr : List String),
      processCommentLinks fetch dir commId urls n = Except.ok (files, tr) →
      ∀ (j : Nat) (hj : j < files.length),
        ∃ tail, (files.get ⟨j, hj⟩).fname = commId ++ "_" ++ toString (n + j) ++ tail := by
  intro urls
  induction urls with
  | nil =>
    intro n files tr h j hj
    simp only [processCommentLinks] at h
    injection h with h1
    injection h1 with ha hb
    subst ha
    exact absurd hj (by simp)
  | cons u rest ih =>
    intro n files tr h j hj
    simp only [processCommentLinks] at h
    split at h
    · exact absurd h (by simp)
    · rename_i v response contentType status hv
      split at h
      · -- falsy or non-200: skipped, link_num unchanged
        split at h
        · exact absurd h (by simp)
        · rename_i fs ftr hr
          injection h with h1
          injection h1 with ha hb
          subst ha
          exact ih n fs ftr hr j hj
      · -- success: file written with ordinal n, link_num becomes n + 1
        split at h
        · exact absurd h (by simp)
        · rename_i fs ftr hr
          injection h with h1
          injection h1 with ha hb
          subst ha
          match j with
          | 0 =>
            refine ⟨if contentType == some "text/html" then ".html"
              else "_" ++ pathName u, ?_⟩
            show commentFname commId n contentType u = _
            rw [commentFname]
            by_cases hct : (contentType == some "text/html") = true
            · rw [if_pos hct, if_pos hct, Nat.add_zero]
            · rw [if_neg hct, if_neg hct, Nat.add_zero, String.append_assoc]
          | j + 1 =>
            have hj2 : j < fs.length := by
              simpa using Nat.lt_of_succ_lt_succ hj
            obtain ⟨tail, htail⟩ := ih (n + 1) fs ftr hr j hj2
            refine ⟨tail, ?_⟩
            have harith : n + 1 + j = n + (j + 1) := by omega
            rw [harith] at htail
            simpa using htail

/-- C5 counterexample: in a comment with two links where the first fetch
fails (empty payload, status 500) and the second succeeds, the second link
— document-order index 1 — is archived as `c9_0.html`, not `c9_1.html`:
a failed sibling shifts the ordinal. -/
theorem comment_link_ordinal_counterexample :
    processCommentLinks
      (fun u => if u == "http://x/b" then NetOutcome.success [2] "text/html" 200
        else NetOutcome.success [] "text/html" 500)
      ["web", "1", "comments"] "c9" ["http://x/a", "http://x/b"] 0 =
      Except.ok ([⟨["web", "1", "comments"], "c9_0.html", [2]⟩],
        ["http://x/a", "http://x/b"]) ∧
    ("c9_0.html" : String) ≠ "c9_1.html" :=
  ⟨rfl, by decide⟩

/-- C5 amended: the ordinal in the archived filename
`<commentID>_<ordinal>...` is the link's index among the comment's
successfully archived links, counted from 0 in document order — a failed
or non-200 sibling link is skipped without consuming an ordinal.  The j-th
file archived for a comment is named `<commentID>_<j>...`; when every link
of the comment is fetched successfully this index coincides with the
link's document-order index. -/
theorem comment_link_ordinals (fetch : String → NetOutcome)
    (dir : List String) (commId : String) (urls : List String)
    (files : List WrittenFile) (tr : List String)
    (h : processCommentLinks fetch dir commId urls 0 = Except.ok (files, tr)) :
    ∀ (j : Nat) (hj : j < files.length),
      ∃ tail, (files.get ⟨j, hj⟩).fname = commId ++ "_" ++ toString j ++ tail := by
  intro j hj
  have := processCommentLinks_ordinal fetch dir commId urls 0 files tr h j hj
  simpa using this

/-- Witness for C5 at a concrete all-successful comment. -/
theorem comment_link_ordinals_witness :
    ∃ tail,
      (([⟨["web"], "c_0.html", [1]⟩] : List WrittenFile).get
        ⟨0, Nat.zero_lt_one⟩).fname = "c" ++ "_" ++ toString 0 ++ tail :=
  comment_link_ordinals (fun _ => NetOutcome.success [1] "text/html" 200)
    ["web"] "c" ["u"] [⟨["web"], "c_0.html", [1]⟩] ["u"] rfl 0 Nat.zero_lt_one

/-- When the item-page fetch completes with a non-empty body — whatever the
status — `parse_item` archives the body, processes the comments and
returns the `(name, url)` pair, where `name` is the stripped text of the
entry's first titleline anchor and `url` is the constructed item-page
URL. -/
theorem parse_item_success (fetch : String → NetOutcome)
    (extract : Payload → List Comment) (root : String) (item : Item)
    (body : Payload) (ct : String) (st : Nat)
    (cfiles : List WrittenFile) (ctr : List String)
    (hfetch : fetch (itemUrl item.id) = NetOutcome.success body ct st)
    (hbody : body ≠ [])
    (hcomm : parse_comments fetch extract root body item.id = Except.ok (cfiles, ctr)) :
    parse_item fetch extract root item =
      Except.ok (some ((pyStripStr item.titleText, itemUrl item.id),
        ⟨[root, item.id], make_safe_filename (pyStripStr item.titleText), body⟩
          :: cfiles)) := by
  match hb : body with
  | [] => exact absurd rfl hbody
  | b :: bs =>
    simp only [parse_item, hfetch, read_url, falsy, Option.getD_some,
      Bool.false_eq_true, if_false, hcomm]

/-- C8 counterexample: for a story entry whose titleline anchor points at
`http://x/a`, a successful `parse_item` returns the constructed item-page
URL `https://news.ycombinator.com/item?id=123`, not the extracted href. -/
theorem parse_item_url_counterexample :
    parse_item
      (fun u => if u == itemUrl "123" then NetOutcome.success [1] "text/html" 200
        else NetOutcome.timeout)
      (fun _ => []) "web" ⟨"123", " Hello World ", "http://x/a"⟩ =
      Except.ok (some (("Hello World", "https://news.ycombinator.com/item?id=123"),
        [⟨["web", "123"], "Hello World.html", [1]⟩])) ∧
    ("https://news.ycombinator.com/item?id=123" : String) ≠ "http://x/a" :=
  ⟨rfl, by decide⟩

/-- C8 amended: for every story whose detail page is fetched with a
non-empty payload, `parse_item` returns the pair `(title, url)` where the
title is the stripped text of the story entry's first titleline anchor
(taken from the front-page markup fragment, not the detail page) and the
url is the constructed detail-page address `SITE/item?id=<id>`; the
anchor's href is read only for logging and does not influence the result.
This pair is what `run` stores in `parsed_news`. -/
theorem parse_item_result_spec (fetch : String → NetOutcome)
    (extract : Payload → List Comment) (root : String) (item : Item)
    (body : Payload) (ct : String) (st : Nat)
    (cfiles : List WrittenFile) (ctr : List String)
    (hfetch : fetch (itemUrl item.id) = NetOutcome.success body ct st)
    (hbody : body ≠ [])
    (hcomm : parse_comments fetch extract root body item.id = Except.ok (cfiles, ctr)) :
    parse_item fetch extract root item =
      Except.ok (some ((pyStripStr item.titleText, itemUrl item.id),
        ⟨[root, item.id], make_safe_filename (pyStripStr item.titleText), body⟩
          :: cfiles)) ∧
    (∀ href2 : String, parse_item fetch extract root
        { item with href := href2 } = parse_item fetch extract root item) := by
  constructor
  · exact parse_item_success fetch extract root item body ct st cfiles ctr
      hfetch hbody hcomm
  · intro href2
    cases item
    rfl

/-- Witness for C8 at a concrete story entry. -/
theorem parse_item_result_spec_witness :
    parse_item
      (fun u => if u == itemUrl "42" then NetOutcome.success [3] "text/html" 200
        else NetOutcome.timeout)
      (fun _ => []) "web" ⟨"42", "Title", "http://y/b"⟩ =
      Except.ok (some (("Title", itemUrl "42"),
        [⟨["web", "42"], "Title.html", [3]⟩])) :=
  (parse_item_result_spec
    (fun u => if u == itemUrl "42" then NetOutcome.success [3] "text/html" 200
      else NetOutcome.timeout)
    (fun _ => []) "web" ⟨"42", "Title", "http://y/b"⟩ [3] "text/html" 200 [] []
    rfl (by decide) rfl).1

/-- C9: the status of the story-page fetch is never checked in
`parse_item`, only emptiness of the payload: a non-empty payload with any
status — 500 included — is archived under `root/<storyID>/` and the
resulting pair is inserted into `parsed_news` by the crawl loop. -/
theorem non_success_status_still_archived (fetch : String → NetOutcome)
    (extract : Payload → List Comment) (root : String) (item : Item)
    (body : Payload) (ct : String) (st : Nat)
    (cfiles : List WrittenFile) (ctr : List String) (seen : Seen)
    (hfetch : fetch (itemUrl item.id) = NetOutcome.success body ct st)
    (hbody : body ≠ [])
    (hcomm : parse_comments fetch extract root body item.id = Except.ok (cfiles, ctr))
    (hseen : seen.lookup item.id = none) :
    parse_item fetch extract root item =
      Except.ok (some ((pyStripStr item.titleText, itemUrl item.id),
        ⟨[root, item.id], make_safe_filename (pyStripStr item.titleText), body⟩
          :: cfiles)) ∧
    processResult fetch extract root item =
      some (pyStripStr item.titleText, itemUrl item.id) ∧
    ((dispatch (processResult fetch extract root) seen [item]).1).lookup item.id =
      some (pyStripStr item.titleText, itemUrl item.id) := by
  have h1 := parse_item_success fetch extract root item body ct st cfiles ctr
    hfetch hbody hcomm
  have h2 : processResult fetch extract root item =
      some (pyStripStr item.titleText, itemUrl item.id) := by
    rw [processResult, h1]
  refine ⟨h1, h2, ?_⟩
  simp only [dispatch, hseen, Option.isSome_none, Bool.false_eq_true, if_false, h2]
  simp [List.lookup_cons_self]

/-- Witness for C9 at a concrete fetch returning status 503. -/
theorem non_success_status_still_archived_witness :
    processResult
      (fun u => if u == itemUrl "7" then NetOutcome.success [9] "text/html" 503
        else NetOutcome.timeout)
      (fun _ => []) "web" ⟨"7", "Err", "http://z/c"⟩ =
      some ("Err", itemUrl "7") :=
  (non_success_status_still_archived
    (fun u => if u == itemUrl "7" then NetOutcome.success [9] "text/html" 503
      else NetOutcome.timeout)
    (fun _ => []) "web" ⟨"7", "Err", "http://z/c"⟩ [9] "text/html" 503 [] [] []
    rfl (by decide) rfl rfl).2.1

/-- Step equation for `dispatch` on an already-seen id. -/
theorem dispatch_cons_seen {process : Item → Option (String × String)}
    {seen : Seen} {item : Item} {rest : List Item}
    (h : (seen.lookup item.id).isSome = true) :
    dispatch process seen (item :: rest) =
      ((dispatch process seen rest).1,
        Event.skippedSeen item.id :: (dispatch process seen rest).2) := by
  simp [dispatch, h]

/-- Step equation for `dispatch` on an unseen id whose processing returns
nothing (`continue`). -/
theorem dispatch_cons_skip {process : Item → Option (String × String)}
    {seen : Seen} {item : Item} {rest : List Item}
    (h : (seen.lookup item.id).isSome = false) (hp : process item = none) :
    dispatch process seen (item :: rest) =
      ((dispatch process seen rest).1,
        Event.invoked item.id :: (dispatch process seen rest).2) := by
  simp [dispatch, h, hp]

/-- Step equation for `dispatch` on an unseen id whose processing returns a
pair, which is inserted into `parsed_news`. -/
theorem dispatch_cons_insert {process : Item → Option (String × String)}
    {seen : Seen} {item : Item} {rest : List Item} {tpl : String × String}
    (h : (seen.lookup item.id).isSome = false) (hp : process item = some tpl) :
    dispatch process seen (item :: rest) =
      ((dispatch process ((item.id, tpl) :: seen) rest).1,
        Event.invoked item.id ::
          (dispatch process ((item.id, tpl) :: seen) rest).2) := by
  simp [dispatch, h, hp]

/-- Lookup past a cons with a different key. -/
theorem lookup_cons_ne {seen : Seen} {k i : String} {v : String × String}
    (h : k ≠ i) : ((k, v) :: seen).lookup i = seen.lookup i := by
  rw [List.lookup_cons]
  have hbe : (i == k) = false := by
    simp only [beq_eq_false_iff_ne]
    exact Ne.symm h
  rw [hbe]

/-- An id present in `parsed_news` is still present after a dispatch pass:
the dict only grows. -/
theorem dispatch_lookup_mono (process : Item → Option (String × String)) :
    ∀ (items : List Item) (seen : Seen) (i : String),
      (seen.lookup i).isSome = true →
      (((dispatch process seen items).1).lookup i).isSome = true := by
  intro items
  induction items with
  | nil =>
    intro seen i h
    simpa [dispatch] using h
  | cons item rest ih =>
    intro seen i h
    cases hs : (seen.lookup item.id).isSome with
    | true =>
      rw [dispatch_cons_seen hs]
      exact ih seen i h
    | false =>
      cases hp : process item with
      | none =>
        rw [dispatch_cons_skip hs hp]
        exact ih seen i h
      | some tpl =>
        rw [dispatch_cons_insert hs hp]
        apply ih
        by_cases he : item.id = i
        · rw [he, List.lookup_cons_self]
          rfl
        · rw [lookup_cons_ne he]
          exact h

/-- A seen id is never invoked by a dispatch pass, and every considered
occurrence of it is skipped with the debug log. -/
theorem dispatch_seen_skips (process : Item → Option (String × String)) :
    ∀ (items : List Item) (seen : Seen) (i : String),
      (seen.lookup i).isSome = true →
      Event.invoked i ∉ (dispatch process seen items).2 ∧
      (dispatch process seen items).2.count (Event.skippedSeen i) =
        items.countP (fun it => it.id == i) := by
  intro items
  induction items with
  | nil =>
    intro seen i h
    simp [dispatch]
  | cons item rest ih =>
    intro seen i h
    cases hs : (seen.lookup item.id).isSome with
    | true =>
      rw [dispatch_cons_seen hs]
      obtain ⟨ih1, ih2⟩ := ih seen i h
      refine ⟨?_, ?_⟩
      · intro hm
        rcases List.mem_cons.1 hm with h1 | h1
        · exact Event.noConfusion h1
        · exact ih1 h1
      · rw [List.count_cons, ih2, List.countP_cons]
        by_cases he : item.id = i
        · simp [he]
        · simp [he]
    | false =>
      have hne : item.id ≠ i := by
        intro he
        rw [he] at hs
        rw [hs] at h
        exact Bool.noConfusion h
      cases hp : process item with
      | none =>
        rw [dispatch_cons_skip hs hp]
        obtain ⟨ih1, ih2⟩ := ih seen i h
        refine ⟨?_, ?_⟩
        · intro hm
          rcases List.mem_cons.1 hm with h1 | h1
          · exact hne (Event.invoked.inj h1).symm
          · exact ih1 h1
        · rw [List.count_cons, ih2, List.countP_cons]
          simp [hne]
      | some tpl =>
        rw [dispatch_cons_insert hs hp]
        have h2 : ((((item.id, tpl) :: seen).lookup i)).isSome = true := by
          rw [lookup_cons_ne hne]
          exact h
        obtain ⟨ih1, ih2⟩ := ih ((item.id, tpl) :: seen) i h2
        refine ⟨?_, ?_⟩
        · intro hm
          rcases List.mem_cons.1 hm with h1 | h1
          · exact hne (Event.invoked.inj h1).symm
          · exact ih1 h1
        · rw [List.count_cons, ih2, List.countP_cons]
          simp [hne]

/-- C2: once a story identifier is a key of `parsed_news`, no later
iteration of the crawl loop — in the same cycle or any subsequent cycle —
invokes `parse_item` for it again; every considered occurrence of it is
skipped with the debug log. -/
theorem seen_id_never_reinvoked (process : Item → Option (String × String))
    (k : Nat) (seen : Seen) (cycles : List (List Item)) (i : String)
    (h : (seen.lookup i).isSome = true) :
    Event.invoked i ∉ (runCycles process k seen cycles).2 ∧
    (runCycles process k seen cycles).2.count (Event.skippedSeen i) =
      ((cycles.map (fun news => news.take k)).flatten).countP
        (fun it => it.id == i) := by
  induction cycles generalizing seen with
  | nil => simp [runCycles]
  | cons news rest ih =>
    obtain ⟨d1, d2⟩ := dispatch_seen_skips process (news.take k) seen i h
    have hm := dispatch_lookup_mono process (news.take k) seen i h
    obtain ⟨r1, r2⟩ := ih _ hm
    refine ⟨?_, ?_⟩
    · intro hmem
      simp only [runCycles] at hmem
      rcases List.mem_append.1 hmem with h1 | h1
      · exact d1 h1
      · exact r1 h1
    · simp only [runCycles, List.count_append, List.map_cons, List.flatten_cons,
        List.countP_append]
      rw [d2, r2]

/-- Witness for C2: with id "1" already parsed, one further cycle listing
it again skips it and never re-invokes the processor. -/
theorem seen_id_never_reinvoked_witness :
    Event.invoked "1" ∉
      (runCycles (fun _ => none) 5 [("1", ("t", "u"))]
        [[⟨"1", "t", "h"⟩]]).2 ∧
    (runCycles (fun _ => none) 5 [("1", ("t", "u"))]
        [[⟨"1", "t", "h"⟩]]).2.count (Event.skippedSeen "1") =
      ((([[⟨"1", "t", "h"⟩]] : List (List Item)).map
        (fun news => news.take 5)).flatten).countP (fun it => it.id == "1") :=
  seen_id_never_reinvoked (fun _ => none) 5 [("1", ("t", "u"))]
    [[⟨"1", "t", "h"⟩]] "1" (by decide)

/-- Each considered entry produces exactly one dispatch decision, in
listing order, about its own id. -/
theorem dispatch_events_ids (process : Item → Option (String × String)) :
    ∀ (items : List Item) (seen : Seen),
      (dispatch process seen items).2.map Event.targetId = items.map Item.id := by
  intro items
  induction items with
  | nil =>
    intro seen
    simp [dispatch]
  | cons item rest ih =>
    intro seen
    cases hs : (seen.lookup item.id).isSome with
    | true =>
      rw [dispatch_cons_seen hs]
      simp [Event.targetId, ih seen]
    | false =>
      cases hp : process item with
      | none =>
        rw [dispatch_cons_skip hs hp]
        simp [Event.targetId, ih seen]
      | some tpl =>
        rw [dispatch_cons_insert hs hp]
        simp [Event.targetId, ih]

/-- The processor is invoked for an id only if that id was absent from
`parsed_news` when the pass started. -/
theorem dispatch_invoked_absent (process : Item → Option (String × String)) :
    ∀ (items : List Item) (seen : Seen) (i : String),
      Event.invoked i ∈ (dispatch process seen items).2 →
      seen.lookup i = none := by
  intro items
  induction items with
  | nil =>
    intro seen i hm
    simp [dispatch] at hm
  | cons item rest ih =>
    intro seen i hm
    cases hs : (seen.lookup item.id).isSome with
    | true =>
      rw [dispatch_cons_seen hs] at hm
      rcases List.mem_cons.1 hm with h1 | h1
      · exact Event.noConfusion h1
      · exact ih seen i h1
    | false =>
      have habs : seen.lookup item.id = none := by
        cases hv : seen.lookup item.id
        · rfl
        · rw [hv] at hs
          exact Bool.noConfusion hs
      cases hp : process item with
      | none =>
        rw [dispatch_cons_skip hs hp] at hm
        rcases List.mem_cons.1 hm with h1 | h1
        · rw [Event.invoked.inj h1]
          exact habs
        · exact ih seen i h1
      | some tpl =>
        rw [dispatch_cons_insert hs hp] at hm
        rcases List.mem_cons.1 hm with h1 | h1
        · rw [Event.invoked.inj h1]
          exact habs
        · have h2 := ih _ i h1
          by_cases he : item.id = i
          · rw [he, List.lookup_cons_self] at h2
            exact Option.noConfusion h2
          · rw [lookup_cons_ne he] at h2
            exact h2

/-- Every binding in `parsed_news` after a dispatch pass is a pre-existing
binding or the successful processing result of a considered entry. -/
theorem dispatch_lookup_source (process : Item → Option (String × String)) :
    ∀ (items : List Item) (seen : Seen) (i : String) (tpl : String × String),
      ((dispatch process seen items).1).lookup i = some tpl →
      seen.lookup i = some tpl ∨
        ∃ it, it ∈ items ∧ it.id = i ∧ process it = some tpl := by
  intro items
  induction items with
  | nil =>
    intro seen i tpl h
    simp [dispatch] at h
    exact Or.inl h
  | cons item rest ih =>
    intro seen i tpl h
    cases hs : (seen.lookup item.id).isSome with
    | true =>
      rw [dispatch_cons_seen hs] at h
      rcases ih seen i tpl h with h1 | ⟨it, hmem, hid, hpr⟩
      · exact Or.inl h1
      · exact Or.inr ⟨it, List.mem_cons_of_mem _ hmem, hid, hpr⟩
    | false =>
      cases hp : process item with
      | none =>
        rw [dispatch_cons_skip hs hp] at h
        rcases ih seen i tpl h with h1 | ⟨it, hmem, hid, hpr⟩
        · exact Or.inl h1
        · exact Or.inr ⟨it, List.mem_cons_of_mem _ hmem, hid, hpr⟩
      | some tpl0 =>
        rw [dispatch_cons_insert hs hp] at h
        rcases ih _ i tpl h with h1 | ⟨it, hmem, hid, hpr⟩
        · by_cases he : item.id = i
          · rw [he, List.lookup_cons_self] at h1
            refine Or.inr ⟨item, List.mem_cons_self _ _, he, ?_⟩
            rw [hp, h1]
          · rw [lookup_cons_ne he] at h1
            exact Or.inl h1
        · exact Or.inr ⟨it, List.mem_cons_of_mem _ hmem, hid, hpr⟩

/-- A considered entry whose id is unseen and whose processing succeeds
ends up recorded in `parsed_news`. -/
theorem dispatch_success_inserted (process : Item → Option (String × String)) :
    ∀ (items : List Item) (seen : Seen) (it : Item),
      it ∈ items → seen.lookup it.id = none → process it ≠ none →
      (((dispatch process seen items).1).lookup it.id).isSome = true := by
  intro items
  induction items with
  | nil =>
    intro seen it hmem
    exact absurd hmem (List.not_mem_nil it)
  | cons item rest ih =>
    intro seen it hmem habs hsucc
    rcases List.mem_cons.1 hmem with rfl | hmem2
    · have hs : (seen.lookup it.id).isSome = false := by
        rw [habs]
        rfl
      cases hp : process it with
      | none => exact absurd hp hsucc
      | some tpl =>
        rw [dispatch_cons_insert hs hp]
        apply dispatch_lookup_mono
        rw [List.lookup_cons_self]
        rfl
    · cases hs : (seen.lookup item.id).isSome with
      | true =>
        rw [dispatch_cons_seen hs]
        exact ih seen it hmem2 habs hsucc
      | false =>
        cases hp : process item with
        | none =>
          rw [dispatch_cons_skip hs hp]
          exact ih seen it hmem2 habs hsucc
        | some tpl =>
          rw [dispatch_cons_insert hs hp]
          by_cases he : item.id = it.id
          · apply dispatch_lookup_mono
            rw [he, List.lookup_cons_self]
            rfl
          · apply ih _ _ hmem2 _ hsucc
            rw [lookup_cons_ne he]
            exact habs

/-- C7: of a front page with N entries exactly `min k N` are considered,
the first k in listing order, each yielding one dispatch decision about
its id; the processor is invoked only for ids absent from `parsed_news`;
every new binding comes from a considered entry's successful processing,
and a considered unseen entry that processes successfully is inserted. -/
theorem top_news_dispatch (process : Item → Option (String × String))
    (seen : Seen) (news : List Item) (k : Nat) :
    (news.take k).length = min k news.length ∧
    (dispatch process seen (news.take k)).2.map Event.targetId =
      (news.take k).map Item.id ∧
    (∀ i, Event.invoked i ∈ (dispatch process seen (news.take k)).2 →
      seen.lookup i = none) ∧
    (∀ i tpl, ((dispatch process seen (news.take k)).1).lookup i = some tpl →
      seen.lookup i = some tpl ∨
        ∃ it, it ∈ news.take k ∧ it.id = i ∧ process it = some tpl) ∧
    (∀ it, it ∈ news.take k → seen.lookup it.id = none → process it ≠ none →
      (((dispatch process seen (news.take k)).1).lookup it.id).isSome = true) :=
  ⟨List.length_take ..,
    dispatch_events_ids process (news.take k) seen,
    fun i => dispatch_invoked_absent process (news.take k) seen i,
    fun i tpl => dispatch_lookup_source process (news.take k) seen i tpl,
    fun it => dispatch_success_inserted process (news.take k) seen it⟩

/-- Witness for C7: a considered, unseen, successfully processed entry is
recorded. -/
theorem top_news_dispatch_witness :
    ((dispatch (fun it => some (it.titleText, it.href)) []
      (([⟨"1", "t", "h"⟩, ⟨"2", "s", "g"⟩] : List Item).take 1)).1.lookup
        (Item.id ⟨"1", "t", "h"⟩)).isSome = true :=
  (top_news_dispatch (fun it => some (it.titleText, it.href)) []
    [⟨"1", "t", "h"⟩, ⟨"2", "s", "g"⟩] 1).2.2.2.2 ⟨"1", "t", "h"⟩
    (by decide) rfl (by decide)

/-- The first considered occurrence of an unseen id that processes
successfully is invoked, and the id is then in `parsed_news`, so no later
occurrence in the same pass is invoked: one invocation in total. -/
theorem dispatch_first_success_once (process : Item → Option (String × String))
    (i : String) (it0 : Item) :
    ∀ (items : List Item) (seen : Seen),
      seen.lookup i = none →
      items.find? (fun it => it.id == i) = some it0 →
      process it0 ≠ none →
      (dispatch process seen items).2.count (Event.invoked i) = 1 := by
  intro items
  induction items with
  | nil =>
    intro seen h hf hp
    simp [List.find?] at hf
  | cons item rest ih =>
    intro seen h hf hp
    cases hb : (item.id == i) with
    | true =>
      have hii : item.id = i := eq_of_beq hb
      rw [List.find?_cons_of_pos (p := fun it => it.id == i) rest hb] at hf
      have hit : it0 = item := (Option.some.inj hf).symm
      have hs : (seen.lookup item.id).isSome = false := by
        rw [hii, h]
        rfl
      cases hp2 : process item with
      | none =>
        rw [hit] at hp
        exact absurd hp2 hp
      | some tpl =>
        rw [dispatch_cons_insert hs hp2]
        have hseen2 : ((((item.id, tpl) :: seen).lookup i)).isSome = true := by
          rw [hii, List.lookup_cons_self]
          rfl
        have hno := (dispatch_seen_skips process rest _ i hseen2).1
        rw [List.count_cons, List.count_eq_zero_of_not_mem hno, hii]
        simp
    | false =>
      have hne : item.id ≠ i := by
        intro he
        rw [he] at hb
        simp at hb
      rw [List.find?_cons_of_neg (p := fun it => it.id == i) rest (by simp [hb])] at hf
      cases hs : (seen.lookup item.id).isSome with
      | true =>
        rw [dispatch_cons_seen hs]
        rw [List.count_cons]
        simp only [ih seen h hf hp]
        simp
      | false =>
        cases hp2 : process item with
        | none =>
          rw [dispatch_cons_skip hs hp2]
          rw [List.count_cons]
          simp only [ih seen h hf hp]
          simp [hne]
        | some tpl =>
          rw [dispatch_cons_insert hs hp2]
          have h2 : (((item.id, tpl) :: seen).lookup i) = none := by
            rw [lookup_cons_ne hne]
            exact h
          rw [List.count_cons]
          simp only [ih _ h2 hf hp]
          simp [hne]

/-- C10: within one polling cycle, if an id absent from `parsed_news`
occurs among the first `top_news_count` entries (possibly several times)
and its first dispatch succeeds, `parse_item` is invoked exactly once for
that id in the cycle: the insertion made after the first success
deduplicates the remaining occurrences. -/
theorem within_cycle_dedup (process : Item → Option (String × String))
    (seen : Seen) (news : List Item) (k : Nat) (i : String) (it0 : Item)
    (hseen : seen.lookup i = none)
    (hfirst : (news.take k).find? (fun it => it.id == i) = some it0)
    (hsucc : process it0 ≠ none) :
    (dispatch process seen (news.take k)).2.count (Event.invoked i) = 1 :=
  dispatch_first_success_once process i it0 (news.take k) seen
    hseen hfirst hsucc

/-- Witness for C10: id "1" occurs twice among the considered entries, the
first dispatch succeeds, and exactly one invocation happens. -/
theorem within_cycle_dedup_witness :
    (dispatch (fun it => some (it.titleText, it.href)) []
      (([⟨"1", "a", "x"⟩, ⟨"1", "b", "y"⟩] : List Item).take 2)).2.count
        (Event.invoked "1") = 1 :=
  within_cycle_dedup (fun it => some (it.titleText, it.href)) []
    [⟨"1", "a", "x"⟩, ⟨"1", "b", "y"⟩] 2 "1" ⟨"1", "a", "x"⟩
    rfl (by decide) (by decide)

end YCrawler
